import Mathlib

/-!
Verification of the fetch–cache–merge–correlate pipeline of the
cryptocurrency pricing notebook.  The Python/pandas operations are embedded
shallowly: dataframes are explicit row indexes with positionally aligned
columns, `NaN` cells are `Option.none`, Python dicts are insertion-ordered
association lists, raised exceptions are `Except.error`, and the cached
fetchers are explicit state transformers over a model of the cache
directory with a counter of network calls issued.
-/

set_option autoImplicit false

namespace CryptoNotebook

/-- Row keys of a time-series table (dates, modelled as natural numbers). -/
abbrev Date := Nat

/-- A pandas `Series` carrying explicit date keys; a `none` cell models `NaN`. -/
abbrev Series (α : Type) := List (Date × Option α)

/-- A pandas `DataFrame`: an explicit row index together with named columns,
each column a list of cells aligned positionally with the index.
A `none` cell models `NaN`. -/
structure DataFrame (α : Type) where
  index : List Date
  cols : List (String × List (Option α))
deriving DecidableEq

/-- Ordered-dictionary lookup: Python `d[k]` on a `dict` modelled as an
insertion-ordered association list, returning `none` when the key is absent. -/
def alookup {β : Type} (k : String) : List (String × β) → Option β
  | [] => none
  | (k', v) :: rest => if k' = k then some v else alookup k rest

/-- Ordered-dictionary insertion `d[k] = v`: replaces the value in place when
the key is already bound, otherwise appends the new binding at the end
(CPython 3.6 `dict` semantics, insertion-ordered). -/
def dinsert {β : Type} (k : String) (v : β) : List (String × β) → List (String × β)
  | [] => [(k, v)]
  | (k', v') :: rest => if k' = k then (k', v) :: rest else (k', v') :: dinsert k v rest

/-- Cell of a series at date `d`: the cell at the first occurrence of `d`,
and `none` both when the date is absent and when its stored cell is `NaN`. -/
def seriesAt {α : Type} : Series α → Date → Option α
  | [], _ => none
  | (d', v) :: rest, d => if d' = d then v else seriesAt rest d

/-- Column extraction `df[col]`: raises `KeyError` when the column is absent,
otherwise yields the column as a series over the dataframe's index. -/
def DataFrame.getCol {α : Type} (df : DataFrame α) (col : String) :
    Except String (Series α) :=
  match alookup col df.cols with
  | none => Except.error ("KeyError: " ++ col)
  | some vs => Except.ok (df.index.zip vs)

/-- The sorted duplicate-free union of the date keys of a family of series:
the index pandas builds when aligning series with differing indexes. -/
def unionIndex {α : Type} (ss : List (Series α)) : List Date :=
  List.insertionSort (· ≤ ·) (ss.foldr (fun s acc => s.map Prod.fst ++ acc) []).dedup

/-- `pd.DataFrame(series_dict)`: aligns every series of the dict onto the
union of their date keys; cells at dates a series lacks become `NaN`. -/
def pdDataFrame {α : Type} (dict : List (String × Series α)) : DataFrame α :=
  { index := unionIndex (dict.map Prod.snd)
    cols := dict.map (fun c =>
      (c.1, (unionIndex (dict.map Prod.snd)).map (fun d => seriesAt c.2 d))) }

/-- The loop of `merge_dfs_on_column`: iterates positionally over the
dataframes, evaluating `dataframes[index][col]` (which may raise `KeyError`)
and then `labels[index]` (which may raise `IndexError` when `labels` is too
short), accumulating the Python dict `series_dict`. -/
def mergeLoop {α : Type} (col : String) :
    List (DataFrame α) → List String → List (String × Series α) →
    Except String (List (String × Series α))
  | [], _, acc => Except.ok acc
  | df :: dfs, labs, acc =>
    match df.getCol col with
    | Except.error e => Except.error e
    | Except.ok s =>
      match labs with
      | [] => Except.error "IndexError: list index out of range"
      | l :: ls => mergeLoop col dfs ls (dinsert l s acc)

/-- `merge_dfs_on_column(dataframes, labels, col)` from the notebook: builds
`series_dict` in a loop and returns `pd.DataFrame(series_dict)`. -/
def merge_dfs_on_column {α : Type} (dataframes : List (DataFrame α))
    (labels : List String) (col : String) : Except String (DataFrame α) :=
  (mergeLoop col dataframes labels []).map pdDataFrame

/-- Cell of a dataframe at column `c` and date `d`: `none` when the column is
absent, the date is absent from the index, or the stored cell is `NaN`. -/
def DataFrame.cell {α : Type} (df : DataFrame α) (c : String) (d : Date) : Option α :=
  match alookup c df.cols with
  | none => none
  | some vs => seriesAt (df.index.zip vs) d

/-- Contents of one cache file: a pickled dataframe, or bytes on which
`pickle.load` fails. -/
inductive FileContent (α : Type) where
  | table (df : DataFrame α)
  | corrupt
deriving DecidableEq

/-- The cache directory (path → file contents) plus a count of the network
calls issued so far. -/
structure FetchState (α : Type) where
  files : List (String × FileContent α)
  netCalls : Nat
deriving DecidableEq

/-- `data_dir = 'data/'`. -/
def data_dir : String := "data/"

/-- `quandl_id.replace('/','-')`: character-wise replacement of `/` by `-`,
written over the underlying character list (`String.map_sanitize` below
identifies it with `String.map`). -/
def sanitize (s : String) : String :=
  ⟨s.data.map (fun c => if c = '/' then '-' else c)⟩

/-- `cache_path = '{}{}.pkl'.format(data_dir, quandl_id.replace('/','-'))`. -/
def quandlCachePath (quandl_id : String) : String :=
  data_dir ++ sanitize quandl_id ++ ".pkl"

/-- `cache_path = '{}{}.pkl'.format(data_dir, file_name)` in `get_json_data`:
the file name is used verbatim, with no character replacement. -/
def jsonCachePath (file_name : String) : String :=
  data_dir ++ file_name ++ ".pkl"

/-- `get_quandl_data(quandl_id)`: try to open and unpickle the cache file;
on `OSError`/`IOError` (file absent) download via `quandl.get`, write the
cache file, and return the dataframe.  A cache file that opens but fails to
unpickle raises an exception the `except (OSError, IOError)` clause does not
catch.  The network is the oracle `quandl_get`; a raised exception is
`Except.error`. -/
def get_quandl_data {α : Type} (quandl_get : String → Except String (DataFrame α))
    (quandl_id : String) (s : FetchState α) :
    FetchState α × Except String (DataFrame α) :=
  match alookup (quandlCachePath quandl_id) s.files with
  | some (FileContent.table df) => (s, Except.ok df)
  | some FileContent.corrupt => (s, Except.error "UnpicklingError")
  | none =>
    match quandl_get quandl_id with
    | Except.error e => ({ s with netCalls := s.netCalls + 1 }, Except.error e)
    | Except.ok df =>
      ({ files := dinsert (quandlCachePath quandl_id) (FileContent.table df) s.files,
         netCalls := s.netCalls + 1 }, Except.ok df)

/-- `get_json_data(json_url, file_name)`: same caching scheme as
`get_quandl_data`, keyed by `file_name` and downloading via
`pd.read_json(json_url)` (the oracle `read_json`). -/
def get_json_data {α : Type} (read_json : String → Except String (DataFrame α))
    (json_url file_name : String) (s : FetchState α) :
    FetchState α × Except String (DataFrame α) :=
  match alookup (jsonCachePath file_name) s.files with
  | some (FileContent.table df) => (s, Except.ok df)
  | some FileContent.corrupt => (s, Except.error "UnpicklingError")
  | none =>
    match read_json json_url with
    | Except.error e => ({ s with netCalls := s.netCalls + 1 }, Except.error e)
    | Except.ok df =>
      ({ files := dinsert (jsonCachePath file_name) (FileContent.table df) s.files,
         netCalls := s.netCalls + 1 }, Except.ok df)

/-- Index-aligned multiplication of two series (`s * t` in pandas): the result
is indexed by the union of the two date sets and has a value exactly at the
dates where both operands have a non-`NaN` value. -/
def seriesMul {α : Type} [Mul α] (s t : Series α) : Series α :=
  (unionIndex [s, t]).map (fun d =>
    (d, match seriesAt s d, seriesAt t d with
        | some a, some b => some (a * b)
        | _, _ => none))

/-- `df[name] = s`: aligns the series to the dataframe's own index and
inserts or overwrites the named column. -/
def DataFrame.setCol {α : Type} (df : DataFrame α) (name : String) (s : Series α) :
    DataFrame α :=
  { df with cols := dinsert name (df.index.map (fun d => seriesAt s d)) df.cols }

/-- One step of the conversion loop:
`altcoin_df['price_usd'] = altcoin_df['weightedAverage'] * btc_df['avg_btc_price_usd']`. -/
def addPriceUsd {α : Type} [Mul α] (altcoin_df btc_df : DataFrame α) :
    Except String (DataFrame α) :=
  match altcoin_df.getCol "weightedAverage" with
  | Except.error e => Except.error e
  | Except.ok s =>
    match btc_df.getCol "avg_btc_price_usd" with
    | Except.error e => Except.error e
    | Except.ok t => Except.ok (altcoin_df.setCol "price_usd" (seriesMul s t))

/-- Forward fill (the `fill_method='pad'` step of `pct_change`): each `NaN`
cell takes the most recent preceding non-`NaN` value, when one exists. -/
def ffill (last : Option ℝ) : List (Option ℝ) → List (Option ℝ)
  | [] => []
  | some v :: xs => some v :: ffill (some v) xs
  | none :: xs => last :: ffill last xs

/-- `Series.pct_change()`: forward-fills, then computes
`filled[t] / filled[t-1] - 1`, with the first entry `NaN`. -/
noncomputable def pctChangeCol (xs : List (Option ℝ)) : List (Option ℝ) :=
  ((ffill none xs).zip (none :: ffill none xs)).map (fun p =>
    match p.1, p.2 with
    | some c, some pv => some (c / pv - 1)
    | _, _ => none)

/-- `df.pct_change()`: column-wise percentage change, index unchanged. -/
noncomputable def pctChange (df : DataFrame ℝ) : DataFrame ℝ :=
  { index := df.index
    cols := df.cols.map (fun c => (c.1, pctChangeCol c.2)) }

/-- Modelled from the spec: the notebook's window-restriction cell is the
student placeholder `combined_df_2016 = combined_df["***YOUR CODE HERE***"]`,
so the restriction operation itself is missing from the source; §4.3 of the
spec says only that `correlate` "restricts the table to the window", modelled
here as keeping exactly the rows whose date lies in the closed window
`[lo, hi]`. -/
def restrictWindow (df : DataFrame ℝ) (lo hi : Date) : DataFrame ℝ :=
  { index := df.index.filter (fun d => lo ≤ d && d ≤ hi)
    cols := df.cols.map (fun c =>
      (c.1, ((df.index.zip c.2).filter (fun q => lo ≤ q.1 && q.1 ≤ hi)).map Prod.snd)) }

/-- Arithmetic mean of a list of reals (`0` for the empty list). -/
noncomputable def listMean (xs : List ℝ) : ℝ := xs.sum / xs.length

/-- Centering step of the Pearson computation: subtracts the column means. -/
noncomputable def centerPairs (ps : List (ℝ × ℝ)) : List (ℝ × ℝ) :=
  ps.map (fun p => (p.1 - listMean (ps.map Prod.fst), p.2 - listMean (ps.map Prod.snd)))

/-- Sum of cross products of a paired sample. -/
def sxy (ps : List (ℝ × ℝ)) : ℝ := (ps.map (fun p => p.1 * p.2)).sum

/-- Sum of squares of the first components of a paired sample. -/
def sxx (ps : List (ℝ × ℝ)) : ℝ := (ps.map (fun p => p.1 * p.1)).sum

/-- Sum of squares of the second components of a paired sample. -/
def syy (ps : List (ℝ × ℝ)) : ℝ := (ps.map (fun p => p.2 * p.2)).sum

open Classical in
/-- Pearson correlation of a paired sample, as pandas computes one matrix
entry: centered cross moment over the product of the centered second-moment
roots, and `NaN` (here `none`) when either variance vanishes — in floating
point the `0/0` division yields `NaN`. -/
noncomputable def pearson (ps : List (ℝ × ℝ)) : Option ℝ :=
  if sxx (centerPairs ps) = 0 ∨ syy (centerPairs ps) = 0 then none
  else some (sxy (centerPairs ps) /
    (Real.sqrt (sxx (centerPairs ps)) * Real.sqrt (syy (centerPairs ps))))

/-- Pairwise-complete pairing of two option-valued columns: keeps exactly the
row positions where both columns hold a non-`NaN` value. -/
def pairwiseComplete (xs ys : List (Option ℝ)) : List (ℝ × ℝ) :=
  (xs.zip ys).filterMap (fun p => p.1.bind (fun a => p.2.map (fun b => (a, b))))

/-- One entry of `df.corr(method='pearson')`, at column names `c1`, `c2`:
Pearson correlation over the pairwise-complete observations of the two
columns (`none` when a named column is absent). -/
noncomputable def corrEntry (df : DataFrame ℝ) (c1 c2 : String) : Option ℝ :=
  match alookup c1 df.cols, alookup c2 df.cols with
  | some v1, some v2 => pearson (pairwiseComplete v1 v2)
  | _, _ => none

/-- One entry of `combined_df[window].pct_change().corr(method='pearson')`:
the full correlation pipeline applied to a merged table. -/
noncomputable def corrPipeline (df : DataFrame ℝ) (lo hi : Date) (c1 c2 : String) :
    Option ℝ :=
  corrEntry (pctChange (restrictWindow df lo hi)) c1 c2

/-! ### Helper lemmas -/

/-- Looking a key up right after inserting it yields the inserted value. -/
theorem alookup_dinsert_self {β : Type} (k : String) (v : β) (d : List (String × β)) :
    alookup k (dinsert k v d) = some v := by
  induction d with
  | nil => simp [dinsert, alookup]
  | cons p rest ih =>
    obtain ⟨k', v'⟩ := p
    by_cases h : k' = k
    · simp [dinsert, alookup, h]
    · simp [dinsert, alookup, h, ih]

/-- The data-level sanitizer agrees with `String.map` of the same character
replacement. -/
theorem String.map_sanitize (s : String) :
    sanitize s = s.map (fun c => if c = '/' then '-' else c) :=
  (String.map_eq _ _).symm

/-- If every dataframe of the loop's remaining input lacks column `col` for
some member, the loop raises. -/
theorem mergeLoop_error {α : Type} (col : String) :
    ∀ (dfs : List (DataFrame α)) (labs : List String) (acc : List (String × Series α)),
      (∃ df ∈ dfs, alookup col df.cols = none) →
      ∃ e, mergeLoop col dfs labs acc = Except.error e := by
  intro dfs
  induction dfs with
  | nil => intro labs acc h; simp at h
  | cons df rest ih =>
    intro labs acc h
    rcases h with ⟨df0, hmem, hnone⟩
    rcases List.mem_cons.mp hmem with h0 | h0
    · subst h0
      have hgc : df0.getCol col = Except.error ("KeyError: " ++ col) := by
        simp [DataFrame.getCol, hnone]
      exact ⟨"KeyError: " ++ col, by simp [mergeLoop, hgc]⟩
    · cases hgc : df.getCol col with
      | error e => exact ⟨e, by simp [mergeLoop, hgc]⟩
      | ok s =>
        cases labs with
        | nil => exact ⟨"IndexError: list index out of range", by simp [mergeLoop, hgc]⟩
        | cons l ls =>
          obtain ⟨e, he⟩ := ih ls (dinsert l s acc) ⟨df0, h0, hnone⟩
          exact ⟨e, by simp [mergeLoop, hgc, he]⟩

/-! ### Claims about the cached fetchers -/

/-- Claim C1: with a writable cache directory holding no entry for the
identifier, calling the cached fetch twice issues exactly one network call:
the first call downloads, persists the parsed table as a cache entry and
returns it, and the second call reads that entry and returns the same table
field-for-field — for `get_quandl_data` and `get_json_data` alike. -/
theorem fetch_idempotence {α : Type}
    (quandl_get read_json : String → Except String (DataFrame α))
    (qid url name : String) (s0 t0 : FetchState α) (dfq dfj : DataFrame α)
    (hqc : alookup (quandlCachePath qid) s0.files = none)
    (hqd : quandl_get qid = Except.ok dfq)
    (hjc : alookup (jsonCachePath name) t0.files = none)
    (hjd : read_json url = Except.ok dfj) :
    ((get_quandl_data quandl_get qid s0).2 = Except.ok dfq ∧
      alookup (quandlCachePath qid) (get_quandl_data quandl_get qid s0).1.files =
        some (FileContent.table dfq) ∧
      (get_quandl_data quandl_get qid (get_quandl_data quandl_get qid s0).1).2 =
        Except.ok dfq ∧
      (get_quandl_data quandl_get qid (get_quandl_data quandl_get qid s0).1).1.netCalls =
        s0.netCalls + 1) ∧
    ((get_json_data read_json url name t0).2 = Except.ok dfj ∧
      alookup (jsonCachePath name) (get_json_data read_json url name t0).1.files =
        some (FileContent.table dfj) ∧
      (get_json_data read_json url name (get_json_data read_json url name t0).1).2 =
        Except.ok dfj ∧
      (get_json_data read_json url name (get_json_data read_json url name t0).1).1.netCalls =
        t0.netCalls + 1) := by
  constructor
  · simp [get_quandl_data, hqc, hqd, alookup_dinsert_self]
  · simp [get_json_data, hjc, hjd, alookup_dinsert_self]

/-- Witness for C1 at a concrete identifier, empty cache and a constant
network oracle. -/
theorem fetch_idempotence_witness :
    (get_quandl_data
        (fun _ => Except.ok ({ index := [0], cols := [("Weighted Price", [some (465 : ℚ)])] } : DataFrame ℚ))
        "BCHARTS/KRAKENUSD" { files := [], netCalls := 0 }).2 =
      Except.ok { index := [0], cols := [("Weighted Price", [some 465])] } :=
  (fetch_idempotence (α := ℚ)
    (fun _ => Except.ok { index := [0], cols := [("Weighted Price", [some 465])] })
    (fun _ => Except.ok { index := [0], cols := [("Weighted Price", [some 465])] })
    "BCHARTS/KRAKENUSD" "u" "BTC_ETH" { files := [], netCalls := 0 } { files := [], netCalls := 0 }
    { index := [0], cols := [("Weighted Price", [some 465])] }
    { index := [0], cols := [("Weighted Price", [some 465])] }
    rfl rfl rfl rfl).1.1

/-- Claim C3 counterexample: with a cache file present whose contents fail to
unpickle and the network oracle available, `get_quandl_data` neither
downloads nor returns a table: it propagates the deserialization failure and
issues zero network calls, contrary to the claimed fallback. -/
theorem corrupt_cache_no_fallback_cex :
    (get_quandl_data (fun _ => Except.ok ({ index := [0], cols := [("Open", [some (1 : ℚ)])] } : DataFrame ℚ))
        "BCHARTS/KRAKENUSD"
        { files := [("data/BCHARTS-KRAKENUSD.pkl", FileContent.corrupt)], netCalls := 0 }).2 =
      Except.error "UnpicklingError" ∧
    (get_quandl_data (fun _ => Except.ok ({ index := [0], cols := [("Open", [some (1 : ℚ)])] } : DataFrame ℚ))
        "BCHARTS/KRAKENUSD"
        { files := [("data/BCHARTS-KRAKENUSD.pkl", FileContent.corrupt)], netCalls := 0 }).1.netCalls = 0 :=
  ⟨rfl, rfl⟩

/-- Claim C3 (amended): the `except (OSError, IOError)` clause catches only
the failure to open the cache file; when the file exists but deserializing it
fails, both fetchers propagate the failure unchanged — no download, no cache
write — and the remote fallback happens only when the cache file is absent. -/
theorem corrupt_cache_propagates {α : Type}
    (quandl_get read_json : String → Except String (DataFrame α))
    (qid url name : String) (s0 t0 : FetchState α)
    (hq : alookup (quandlCachePath qid) s0.files = some FileContent.corrupt)
    (hj : alookup (jsonCachePath name) t0.files = some FileContent.corrupt) :
    get_quandl_data quandl_get qid s0 = (s0, Except.error "UnpicklingError") ∧
    get_json_data read_json url name t0 = (t0, Except.error "UnpicklingError") := by
  constructor
  · simp [get_quandl_data, hq]
  · simp [get_json_data, hj]

/-- Witness for the amended C3 at a concrete corrupt cache entry. -/
theorem corrupt_cache_propagates_witness :
    get_json_data (fun _ => Except.ok ({ index := [], cols := [] } : DataFrame ℚ))
        "https://poloniex.com/public" "BTC_ETH"
        { files := [("data/BTC_ETH.pkl", FileContent.corrupt)], netCalls := 0 } =
      ({ files := [("data/BTC_ETH.pkl", FileContent.corrupt)], netCalls := 0 },
        Except.error "UnpicklingError") :=
  (corrupt_cache_propagates
    (fun _ => Except.ok { index := [], cols := [] })
    (fun _ => Except.ok { index := [], cols := [] })
    "BTC_ETH" "https://poloniex.com/public" "BTC_ETH"
    { files := [("data/BTC_ETH.pkl", FileContent.corrupt)], netCalls := 0 }
    { files := [("data/BTC_ETH.pkl", FileContent.corrupt)], netCalls := 0 }
    rfl rfl).2

/-- Claim C4 counterexample: `get_json_data` performs no path-separator
replacement: the identifier `a/b` yields cache path `data/a/b.pkl`, not the
sanitized `data/a-b.pkl` the claim requires of both fetchers (which
`get_quandl_data` alone produces). -/
theorem json_path_unsanitized_cex :
    jsonCachePath "a/b" = "data/a/b.pkl" ∧
    jsonCachePath "a/b" ≠ "data/a-b.pkl" ∧
    quandlCachePath "a/b" = "data/a-b.pkl" := by
  refine ⟨rfl, ?_, rfl⟩
  decide

/-- Claim C4 (amended): `get_quandl_data` derives its cache path by replacing
every `/` in the identifier with `-` — so the file-name component it appends
is slash-free — and appending `.pkl`; `get_json_data` instead appends `.pkl`
to its `file_name` argument verbatim, with no sanitization. -/
theorem cache_path_shapes (quandl_id file_name : String) :
    quandlCachePath quandl_id =
      data_dir ++ quandl_id.map (fun c => if c = '/' then '-' else c) ++ ".pkl" ∧
    (∀ c, c ∈ (sanitize quandl_id).data → c ≠ '/') ∧
    jsonCachePath file_name = data_dir ++ file_name ++ ".pkl" := by
  refine ⟨?_, ?_, rfl⟩
  · rw [quandlCachePath, String.map_sanitize]
  · intro c hc
    simp only [sanitize, List.mem_map] at hc
    obtain ⟨c', _, hc'⟩ := hc
    by_cases h : c' = '/'
    · simp [h] at hc'
      subst hc'
      decide
    · simp [h] at hc'
      subst hc'
      exact h

/-- Witness for the amended C4: the sanitized form of a real identifier is
slash-free at a concrete character. -/
theorem cache_path_shapes_witness : ('-' : Char) ≠ '/' :=
  (cache_path_shapes "BCHARTS/KRAKENUSD" "BTC_ETH").2.1 '-' (by decide)

/-- Claim C10: on a cache miss, when the remote download raises, both
fetchers write no cache file — the cache contents are unchanged — and
propagate the exception (the persist step runs only after a successful
download). -/
theorem fetch_error_propagates {α : Type}
    (quandl_get read_json : String → Except String (DataFrame α))
    (qid url name : String) (s0 t0 : FetchState α) (e1 e2 : String)
    (hqc : alookup (quandlCachePath qid) s0.files = none)
    (hqd : quandl_get qid = Except.error e1)
    (hjc : alookup (jsonCachePath name) t0.files = none)
    (hjd : read_json url = Except.error e2) :
    ((get_quandl_data quandl_get qid s0).1.files = s0.files ∧
      (get_quandl_data quandl_get qid s0).2 = Except.error e1) ∧
    ((get_json_data read_json url name t0).1.files = t0.files ∧
      (get_json_data read_json url name t0).2 = Except.error e2) := by
  constructor
  · simp [get_quandl_data, hqc, hqd]
  · simp [get_json_data, hjc, hjd]

/-- Witness for C10 with a failing network oracle over an empty cache. -/
theorem fetch_error_propagates_witness :
    (get_quandl_data (fun _ => (Except.error "HTTP 503" : Except String (DataFrame ℚ)))
        "BCHARTS/ITBITUSD" { files := [], netCalls := 0 }).1.files = [] ∧
    (get_quandl_data (fun _ => (Except.error "HTTP 503" : Except String (DataFrame ℚ)))
        "BCHARTS/ITBITUSD" { files := [], netCalls := 0 }).2 = Except.error "HTTP 503" :=
  (fetch_error_propagates (fun _ => Except.error "HTTP 503")
    (fun _ => Except.error "HTTP 503") "BCHARTS/ITBITUSD" "u" "BTC_XRP"
    { files := [], netCalls := 0 } { files := [], netCalls := 0 }
    "HTTP 503" "HTTP 503" rfl rfl rfl rfl).1

/-! ### Claims about the merger -/

/-- Claim C7: merging an empty sequence of datasets does not fail:
`merge_dfs_on_column([], [], col)` returns an empty table with no rows and
no columns. -/
theorem merge_empty {α : Type} (col : String) :
    merge_dfs_on_column ([] : List (DataFrame α)) [] col =
      Except.ok { index := [], cols := [] } := rfl

/-- Claim C2 counterexample: a dataset lacking the requested field makes
`merge_dfs_on_column` raise `KeyError` — it does not return a table with the
violating source's column filled with unset values. -/
theorem merge_missing_col_cex :
    merge_dfs_on_column
      [({ index := [0], cols := [("Open", [some (1 : ℚ)])] } : DataFrame ℚ)]
      ["KRAKEN"] "Weighted Price" =
      Except.error "KeyError: Weighted Price" := rfl

/-- Claim C2 (amended): when the named field is missing from some dataset of
the input sequence, `merge_dfs_on_column` raises (Python `KeyError` from
`dataframes[index][col]`) instead of including placeholder columns for the
violating sources. -/
theorem merge_missing_col_raises {α : Type} (dataframes : List (DataFrame α))
    (labels : List String) (col : String)
    (h : ∃ df ∈ dataframes, alookup col df.cols = none) :
    ∃ e, merge_dfs_on_column dataframes labels col = Except.error e := by
  obtain ⟨e, he⟩ := mergeLoop_error col dataframes labels [] h
  refine ⟨e, ?_⟩
  unfold merge_dfs_on_column
  rw [he]
  rfl

/-- Witness for the amended C2 at a one-dataset input lacking the field. -/
theorem merge_missing_col_raises_witness :
    ∃ e, merge_dfs_on_column
      [({ index := [0, 1], cols := [("Close", [some (3 : ℚ), none])] } : DataFrame ℚ)]
      ["BITSTAMP"] "Weighted Price" = Except.error e :=
  merge_missing_col_raises _ _ _
    ⟨{ index := [0, 1], cols := [("Close", [some 3, none])] }, List.mem_singleton.mpr rfl, rfl⟩


/-! ### Structure of a successful merge -/

/-- Inserting a fresh key into the dict appends the binding at the end. -/
theorem dinsert_append {β : Type} (k : String) (v : β) (d : List (String × β))
    (h : k ∉ d.map Prod.fst) : dinsert k v d = d ++ [(k, v)] := by
  induction d with
  | nil => rfl
  | cons p rest ih =>
    obtain ⟨k', v'⟩ := p
    simp only [List.map_cons, List.mem_cons, not_or] at h
    simp only [dinsert, if_neg (fun hh : k' = k => h.1 hh.symm), List.cons_append,
      ih h.2]

/-- Looking up a key in a dict whose values were rewritten pointwise. -/
theorem alookup_map {β γ : Type} (k : String) (g : β → γ) (d : List (String × β)) :
    alookup k (d.map (fun c => (c.1, g c.2))) = (alookup k d).map g := by
  induction d with
  | nil => rfl
  | cons p rest ih =>
    obtain ⟨k', v'⟩ := p
    by_cases h : k' = k
    · simp [alookup, h]
    · simp [alookup, h, ih]

/-- A successful dict lookup comes from a binding of the dict. -/
theorem mem_of_alookup {β : Type} {k : String} {v : β} :
    ∀ {d : List (String × β)}, alookup k d = some v → (k, v) ∈ d := by
  intro d
  induction d with
  | nil => intro h; simp [alookup] at h
  | cons p rest ih =>
    obtain ⟨k', v'⟩ := p
    intro h
    by_cases hk : k' = k
    · subst hk
      have h' : v' = v := by simpa [alookup] using h
      subst h'
      exact List.mem_cons_self _ _
    · simp only [alookup, if_neg hk] at h
      exact List.mem_cons_of_mem _ (ih h)

/-- In a zip of duplicate-free keys with values, lookup finds exactly the
paired value. -/
theorem alookup_zip_of_mem {β : Type} {k : String} {v : β} :
    ∀ (ks : List String) (vs : List β), ks.Nodup → (k, v) ∈ ks.zip vs →
      alookup k (ks.zip vs) = some v := by
  intro ks
  induction ks with
  | nil => intro vs _ h; simp at h
  | cons k0 rest ih =>
    intro vs hnd hmem
    cases vs with
    | nil => simp at hmem
    | cons v0 vrest =>
      simp only [List.zip_cons_cons, List.mem_cons] at hmem
      rcases hmem with heq | hmem
      · cases heq
        simp [alookup]
      · have hk : k ∈ rest := (List.of_mem_zip hmem).1
        have hne : k0 ≠ k := fun hh => (List.nodup_cons.mp hnd).1 (hh ▸ hk)
        simp only [List.zip_cons_cons, alookup, if_neg hne]
        exact ih vrest (List.nodup_cons.mp hnd).2 hmem

/-- The cell of a series of the shape `idx.zip (idx.map f)`. -/
theorem seriesAt_zip_map {α : Type} (idx : List Date) (f : Date → Option α) (d : Date) :
    seriesAt (idx.zip (idx.map f)) d = if d ∈ idx then f d else none := by
  induction idx with
  | nil => simp [seriesAt]
  | cons a l ih =>
    rw [List.map_cons, List.zip_cons_cons]
    by_cases h : a = d
    · subst h
      simp [seriesAt]
    · rw [show seriesAt ((a, f a) :: l.zip (l.map f)) d = seriesAt (l.zip (l.map f)) d
        from by simp [seriesAt, h]]
      rw [ih]
      simp [List.mem_cons, Ne.symm h]

/-- The cell of a series of the shape `idx.map (fun d => (d, g d))`. -/
theorem seriesAt_map_pair {α : Type} (idx : List Date) (g : Date → Option α) (d : Date) :
    seriesAt (idx.map (fun d => (d, g d))) d = if d ∈ idx then g d else none := by
  induction idx with
  | nil => simp [seriesAt]
  | cons a l ih =>
    rw [List.map_cons]
    by_cases h : a = d
    · subst h
      simp [seriesAt]
    · rw [show seriesAt ((a, g a) :: l.map (fun d => (d, g d))) d =
          seriesAt (l.map (fun d => (d, g d))) d from by simp [seriesAt, h]]
      rw [ih]
      simp [List.mem_cons, Ne.symm h]

/-- A series lookup at a date outside the index is unset. -/
theorem seriesAt_zip_not_mem {α : Type} :
    ∀ (idx : List Date) (vs : List (Option α)) (d : Date), d ∉ idx →
      seriesAt (idx.zip vs) d = none := by
  intro idx
  induction idx with
  | nil => intro vs d _; simp [seriesAt]
  | cons a l ih =>
    intro vs d h
    simp only [List.mem_cons, not_or] at h
    cases vs with
    | nil => simp [seriesAt]
    | cons v vrest =>
      simp only [List.zip_cons_cons, seriesAt, if_neg (fun hh : a = d => h.1 hh.symm)]
      exact ih vrest d h.2

/-- Membership in the union index of a family of series. -/
theorem mem_unionIndex {α : Type} (ss : List (Series α)) (d : Date) :
    d ∈ unionIndex ss ↔ ∃ s ∈ ss, d ∈ s.map Prod.fst := by
  unfold unionIndex
  rw [(List.perm_insertionSort _ _).mem_iff, List.mem_dedup]
  induction ss with
  | nil => simp
  | cons s rest ih => simp [List.mem_append, ih]

/-- Explicit value of the `merge_dfs_on_column` loop on well-formed input:
the dict pairs the labels, in order, with the extracted columns. -/
theorem mergeLoop_ok_strong {α : Type} (col : String) :
    ∀ (dfs : List (DataFrame α)) (labs : List String) (acc : List (String × Series α)),
      dfs.length = labs.length →
      labs.Nodup →
      (∀ l ∈ labs, l ∉ acc.map Prod.fst) →
      (∀ df ∈ dfs, ∃ vs, alookup col df.cols = some vs) →
      mergeLoop col dfs labs acc =
        Except.ok (acc ++
          labs.zip (dfs.map (fun df => df.index.zip ((alookup col df.cols).getD [])))) := by
  intro dfs
  induction dfs with
  | nil =>
    intro labs acc hlen _ _ _
    cases labs with
    | nil => simp [mergeLoop]
    | cons l ls => simp at hlen
  | cons df rest ih =>
    intro labs acc hlen hnd hdisj hcol
    cases labs with
    | nil => simp at hlen
    | cons l ls =>
      obtain ⟨vs, hvs⟩ := hcol df (List.mem_cons_self _ _)
      have hgc : df.getCol col = Except.ok (df.index.zip vs) := by
        simp [DataFrame.getCol, hvs]
      have hins : dinsert l (df.index.zip vs) acc = acc ++ [(l, df.index.zip vs)] :=
        dinsert_append _ _ _ (hdisj l (List.mem_cons_self _ _))
      have hdisj2 : ∀ l' ∈ ls, l' ∉ (acc ++ [(l, df.index.zip vs)]).map Prod.fst := by
        intro l' hl'
        simp only [List.map_append, List.mem_append, List.map_cons, List.map_nil,
          List.mem_singleton, not_or]
        refine ⟨hdisj l' (List.mem_cons_of_mem _ hl'), ?_⟩
        intro heq
        exact (List.nodup_cons.mp hnd).1 (heq ▸ hl')
      have hrec := ih ls (acc ++ [(l, df.index.zip vs)]) (by simpa using hlen)
        (List.nodup_cons.mp hnd).2 hdisj2 (fun d hd => hcol d (List.mem_cons_of_mem _ hd))
      simp only [mergeLoop, hgc, hins, hrec, hvs, Option.getD_some, List.map_cons,
        List.zip_cons_cons, List.append_assoc, List.singleton_append]

/-- On well-formed input the merge succeeds and returns the aligned dict. -/
theorem merge_ok {α : Type} (dataframes : List (DataFrame α)) (labels : List String)
    (col : String) (hlen : dataframes.length = labels.length) (hnd : labels.Nodup)
    (hcol : ∀ df ∈ dataframes, ∃ vs, alookup col df.cols = some vs) :
    merge_dfs_on_column dataframes labels col = Except.ok (pdDataFrame
      (labels.zip (dataframes.map
        (fun df => df.index.zip ((alookup col df.cols).getD []))))) := by
  rw [merge_dfs_on_column,
    mergeLoop_ok_strong col dataframes labels [] hlen hnd (by simp) hcol]
  rfl

/-- The column names of `pd.DataFrame(series_dict)` are the dict keys. -/
theorem pdDataFrame_keys {α : Type} (dict : List (String × Series α)) :
    (pdDataFrame dict).cols.map Prod.fst = dict.map Prod.fst := by
  simp only [pdDataFrame, List.map_map]
  rfl

/-- The cell of `pd.DataFrame(series_dict)` at a bound column name is the
dict series' own cell, for dates of the union index. -/
theorem pdDataFrame_cell {α : Type} (dict : List (String × Series α)) (c : String)
    (s : Series α) (d : Date) (h : alookup c dict = some s) :
    (pdDataFrame dict).cell c d =
      if d ∈ unionIndex (dict.map Prod.snd) then seriesAt s d else none := by
  have hl := alookup_map c
    (fun t => (unionIndex (dict.map Prod.snd)).map (fun dd => seriesAt t dd)) dict
  simp only [DataFrame.cell, pdDataFrame, hl, h, Option.map_some']
  exact seriesAt_zip_map _ _ _

/-- Claim C6: for well-formed input (one label per dataset, duplicate-free
labels, the field present in every dataset), `merge_dfs_on_column` succeeds
and the column order of its result is exactly the order of the `labels`
argument — not date order and not alphabetical order. -/
theorem merge_column_order {α : Type} (dataframes : List (DataFrame α))
    (labels : List String) (col : String)
    (hlen : dataframes.length = labels.length)
    (hnd : labels.Nodup)
    (hcol : ∀ df ∈ dataframes, ∃ vs, alookup col df.cols = some vs) :
    ∃ T, merge_dfs_on_column dataframes labels col = Except.ok T ∧
      T.cols.map Prod.fst = labels := by
  refine ⟨_, merge_ok dataframes labels col hlen hnd hcol, ?_⟩
  rw [pdDataFrame_keys, List.map_fst_zip]
  simp [hlen]

/-- Witness for C6 at two concrete single-column datasets whose labels are
neither in date order nor alphabetical. -/
theorem merge_column_order_witness :
    ∃ T, merge_dfs_on_column
        [({ index := [0], cols := [("Weighted Price", [some (5 : ℚ)])] } : DataFrame ℚ),
          { index := [1], cols := [("Weighted Price", [some 7])] }]
        ["KRAKEN", "COINBASE"] "Weighted Price" = Except.ok T ∧
      T.cols.map Prod.fst = ["KRAKEN", "COINBASE"] :=
  merge_column_order _ _ _ rfl (by decide)
    (by
      intro df hdf
      rcases List.mem_cons.mp hdf with h | h
      · exact ⟨[some 5], by rw [h]; rfl⟩
      · rcases List.mem_cons.mp h with h2 | h2
        · exact ⟨[some 7], by rw [h2]; rfl⟩
        · exact absurd h2 (List.not_mem_nil df))

/-- Claim C5: for well-formed input with the field present in every dataset,
the row set of the merged table is exactly the union of the input date sets,
and for every (label, dataset) input pair, any date absent from that
dataset's index has an unset cell (`NaN`, not zero) in that label's
column — in particular at dates present in exactly one input, all other
columns are unset. -/
theorem merge_completeness {α : Type} (dataframes : List (DataFrame α))
    (labels : List String) (col : String) (T : DataFrame α)
    (hlen : dataframes.length = labels.length)
    (hnd : labels.Nodup)
    (hwf : ∀ df ∈ dataframes, ∀ p ∈ df.cols, p.2.length = df.index.length)
    (hcol : ∀ df ∈ dataframes, ∃ vs, alookup col df.cols = some vs)
    (hT : merge_dfs_on_column dataframes labels col = Except.ok T) :
    (∀ d, d ∈ T.index ↔ ∃ df ∈ dataframes, d ∈ df.index) ∧
    (∀ lp ∈ labels.zip dataframes, ∀ d, d ∉ lp.2.index → T.cell lp.1 d = none) := by
  have hm := merge_ok dataframes labels col hlen hnd hcol
  rw [hm] at hT
  have hTeq : T = pdDataFrame (labels.zip (dataframes.map
      (fun df => df.index.zip ((alookup col df.cols).getD [])))) :=
    (Except.ok.inj hT).symm
  subst hTeq
  have hexlen : (dataframes.map
      (fun df => df.index.zip ((alookup col df.cols).getD []))).length ≤ labels.length := by
    simp [hlen]
  constructor
  · intro d
    show d ∈ unionIndex _ ↔ _
    rw [mem_unionIndex, List.map_snd_zip _ _ hexlen]
    constructor
    · rintro ⟨s, hs, hd⟩
      rcases List.mem_map.mp hs with ⟨df, hdf, rfl⟩
      rcases List.mem_map.mp hd with ⟨p, hp, rfl⟩
      exact ⟨df, hdf, (List.of_mem_zip hp).1⟩
    · rintro ⟨df, hdf, hd⟩
      obtain ⟨vs, hvs⟩ := hcol df hdf
      have hvlen : vs.length = df.index.length :=
        hwf df hdf (col, vs) (mem_of_alookup hvs)
      refine ⟨df.index.zip ((alookup col df.cols).getD []),
        List.mem_map.mpr ⟨df, hdf, rfl⟩, ?_⟩
      rw [hvs, Option.getD_some, List.map_fst_zip _ _ (le_of_eq hvlen.symm)]
      exact hd
  · rintro ⟨l, df⟩ hmem d hd
    have hmem2 : (l, df.index.zip ((alookup col df.cols).getD [])) ∈
        labels.zip (dataframes.map
          (fun df => df.index.zip ((alookup col df.cols).getD []))) := by
      rw [List.zip_map_right]
      exact List.mem_map.mpr ⟨(l, df), hmem, rfl⟩
    have halk := alookup_zip_of_mem labels _ hnd hmem2
    rw [pdDataFrame_cell _ _ _ d halk]
    split_ifs with hin
    · exact seriesAt_zip_not_mem _ _ _ hd
    · rfl

/-- Witness for C5: in a concrete two-source merge, date `0` occurs only in
the first input, and the second input's column is unset there. -/
theorem merge_completeness_witness :
    DataFrame.cell
      { index := [0, 1],
        cols := [("KRAKEN", [some (1 : ℚ), none]), ("COINBASE", [none, some 2])] }
      "COINBASE" 0 = none :=
  (merge_completeness
    [({ index := [0], cols := [("Weighted Price", [some (1 : ℚ)])] } : DataFrame ℚ),
      { index := [1], cols := [("Weighted Price", [some 2])] }]
    ["KRAKEN", "COINBASE"] "Weighted Price"
    { index := [0, 1],
      cols := [("KRAKEN", [some 1, none]), ("COINBASE", [none, some 2])] }
    rfl (by decide) (by decide)
    (by
      intro df hdf
      rcases List.mem_cons.mp hdf with h | h
      · exact ⟨[some 1], by rw [h]; rfl⟩
      · rcases List.mem_cons.mp h with h2 | h2
        · exact ⟨[some 2], by rw [h2]; rfl⟩
        · exact absurd h2 (List.not_mem_nil df))
    rfl).2
    ("COINBASE", { index := [1], cols := [("Weighted Price", [some 2])] })
    (by decide) 0 (by decide)

/-! ### Claim about the unit conversion -/

/-- Claim C8: in the unit-conversion step, every row of the dependent
dataframe whose date is absent from the index series' dataframe yields an
unset (`NaN`) cell in the new `price_usd` column — not a zero and not an
error. -/
theorem convert_absent_date_unset {α : Type} [Mul α]
    (altcoin_df btc_df : DataFrame α) (R : DataFrame α)
    (hR : addPriceUsd altcoin_df btc_df = Except.ok R)
    (d : Date) (hd : d ∉ btc_df.index) :
    R.cell "price_usd" d = none := by
  unfold addPriceUsd DataFrame.getCol at hR
  rcases hw : alookup "weightedAverage" altcoin_df.cols with _ | vsw
  · rw [hw] at hR
    exact absurd hR (by simp)
  rcases hb : alookup "avg_btc_price_usd" btc_df.cols with _ | vsb
  · rw [hw, hb] at hR
    exact absurd hR (by simp)
  rw [hw, hb] at hR
  have hReq : R = altcoin_df.setCol "price_usd"
      (seriesMul (altcoin_df.index.zip vsw) (btc_df.index.zip vsb)) :=
    (Except.ok.inj hR).symm
  subst hReq
  have ht : seriesAt (btc_df.index.zip vsb) d = none :=
    seriesAt_zip_not_mem _ _ _ hd
  simp only [DataFrame.setCol, DataFrame.cell, alookup_dinsert_self]
  rw [seriesAt_zip_map]
  split_ifs with hmem
  · simp only [seriesMul, seriesAt_map_pair, ht]
    split_ifs with h2
    · cases seriesAt (altcoin_df.index.zip vsw) d <;> rfl
    · rfl
  · rfl

/-- Witness for C8: a concrete altcoin row at date `5`, absent from the
index dataframe, converts to an unset cell. -/
theorem convert_absent_date_unset_witness :
    DataFrame.cell
      { index := [5], cols := [("weightedAverage", [some (2 : ℚ)]), ("price_usd", [none])] }
      "price_usd" 5 = none :=
  convert_absent_date_unset
    ({ index := [5], cols := [("weightedAverage", [some 2])] } : DataFrame ℚ)
    { index := [0], cols := [("avg_btc_price_usd", [some 3])] }
    { index := [5], cols := [("weightedAverage", [some 2]), ("price_usd", [none])] }
    rfl 5 (by decide)

/-! ### Pearson correlation facts -/

/-- A sum of squares of first components is nonnegative. -/
theorem sxx_nonneg (ps : List (ℝ × ℝ)) : 0 ≤ sxx ps :=
  List.sum_nonneg (by
    intro x hx
    rcases List.mem_map.mp hx with ⟨p, _, rfl⟩
    exact mul_self_nonneg _)

/-- A sum of squares of second components is nonnegative. -/
theorem syy_nonneg (ps : List (ℝ × ℝ)) : 0 ≤ syy ps :=
  List.sum_nonneg (by
    intro x hx
    rcases List.mem_map.mp hx with ⟨p, _, rfl⟩
    exact mul_self_nonneg _)

/-- Cauchy–Schwarz for paired samples: the squared cross moment is bounded by
the product of the second moments. -/
theorem cs_paired (ps : List (ℝ × ℝ)) : sxy ps ^ 2 ≤ sxx ps * syy ps := by
  induction ps with
  | nil => simp [sxy, sxx, syy]
  | cons p t ih =>
    have hA : 0 ≤ sxx t := sxx_nonneg t
    have hB : 0 ≤ syy t := syy_nonneg t
    simp only [sxy, sxx, syy, List.map_cons, List.sum_cons] at *
    rcases eq_or_lt_of_le hA with hA0 | hApos
    · have hS : (t.map (fun p => p.1 * p.2)).sum = 0 := by nlinarith [ih]
      rw [hS, ← hA0]
      nlinarith [mul_self_nonneg (p.1 * p.2), mul_nonneg (mul_self_nonneg p.1) hB]
    · nlinarith [sq_nonneg (p.1 * (t.map (fun p => p.1 * p.2)).sum -
          p.2 * (t.map (fun p => p.1 * p.1)).sum),
        mul_nonneg (mul_self_nonneg p.1) (sub_nonneg.mpr ih), ih, hB, hApos,
        mul_nonneg (le_of_lt hApos) hB, sq_nonneg (p.1 * p.2)]

/-- Every defined Pearson coefficient lies in `[-1, 1]`. -/
theorem pearson_bounds (ps : List (ℝ × ℝ)) (r : ℝ) (h : pearson ps = some r) :
    -1 ≤ r ∧ r ≤ 1 := by
  unfold pearson at h
  split_ifs at h with hguard
  push_neg at hguard
  obtain ⟨hA, hB⟩ := hguard
  have hA' : 0 < sxx (centerPairs ps) := lt_of_le_of_ne (sxx_nonneg _) (Ne.symm hA)
  have hB' : 0 < syy (centerPairs ps) := lt_of_le_of_ne (syy_nonneg _) (Ne.symm hB)
  have hr : r = sxy (centerPairs ps) /
      (Real.sqrt (sxx (centerPairs ps)) * Real.sqrt (syy (centerPairs ps))) :=
    (Option.some.inj h).symm
  have hcs := cs_paired (centerPairs ps)
  have habs : |sxy (centerPairs ps)| ≤
      Real.sqrt (sxx (centerPairs ps)) * Real.sqrt (syy (centerPairs ps)) := by
    rw [← Real.sqrt_mul_self (abs_nonneg (sxy (centerPairs ps)))]
    rw [← Real.sqrt_mul (le_of_lt hA')]
    apply Real.sqrt_le_sqrt
    rw [abs_mul_abs_self]
    nlinarith [hcs]
  have hden : 0 < Real.sqrt (sxx (centerPairs ps)) * Real.sqrt (syy (centerPairs ps)) :=
    mul_pos (Real.sqrt_pos.mpr hA') (Real.sqrt_pos.mpr hB')
  have habs1 : |r| ≤ 1 := by
    rw [hr, abs_div, abs_of_pos hden]
    exact div_le_one_of_le₀ habs (le_of_lt hden)
  exact abs_le.mp habs1

/-- On a diagonal sample the cross moment equals both second moments. -/
theorem sxy_eq_sxx_of_diag (ps : List (ℝ × ℝ)) (h : ∀ p ∈ ps, p.1 = p.2) :
    sxy ps = sxx ps ∧ syy ps = sxx ps := by
  induction ps with
  | nil => simp [sxy, sxx, syy]
  | cons p t ih =>
    have hp := h p (List.mem_cons_self _ _)
    have ih' := ih (fun q hq => h q (List.mem_cons_of_mem _ hq))
    simp only [sxy, sxx, syy, List.map_cons, List.sum_cons] at *
    rw [← hp, ih'.1, ih'.2]
    exact ⟨rfl, rfl⟩

/-- Centering preserves the diagonal shape of a sample. -/
theorem centerPairs_diag (ps : List (ℝ × ℝ)) (h : ∀ p ∈ ps, p.1 = p.2) :
    ∀ q ∈ centerPairs ps, q.1 = q.2 := by
  intro q hq
  rcases List.mem_map.mp hq with ⟨p, hp, rfl⟩
  have hm : ps.map Prod.fst = ps.map Prod.snd :=
    List.map_congr_left (fun p hp => h p hp)
  simp only [hm, h p hp]

/-- A defined Pearson coefficient of a sample paired with itself is `1`. -/
theorem pearson_diag (ps : List (ℝ × ℝ)) (h : ∀ p ∈ ps, p.1 = p.2) (r : ℝ)
    (hr : pearson ps = some r) : r = 1 := by
  unfold pearson at hr
  split_ifs at hr with hguard
  push_neg at hguard
  have hd := sxy_eq_sxx_of_diag (centerPairs ps) (centerPairs_diag ps h)
  have hA : 0 < sxx (centerPairs ps) :=
    lt_of_le_of_ne (sxx_nonneg _) (Ne.symm hguard.1)
  have hval : r = sxx (centerPairs ps) /
      (Real.sqrt (sxx (centerPairs ps)) * Real.sqrt (sxx (centerPairs ps))) := by
    rw [← Option.some.inj hr, hd.1, hd.2]
  rw [hval, Real.mul_self_sqrt (le_of_lt hA), div_self (ne_of_gt hA)]

/-- Swapping the components leaves the cross moment unchanged. -/
theorem sxy_swap (ps : List (ℝ × ℝ)) : sxy (ps.map (fun p => (p.2, p.1))) = sxy ps := by
  induction ps with
  | nil => rfl
  | cons p t ih =>
    simp only [sxy, List.map_cons, List.sum_cons] at *
    rw [ih, mul_comm]

/-- Swapping the components exchanges the two second moments. -/
theorem sxx_swap (ps : List (ℝ × ℝ)) : sxx (ps.map (fun p => (p.2, p.1))) = syy ps := by
  induction ps with
  | nil => rfl
  | cons p t ih =>
    simp only [sxx, syy, List.map_cons, List.sum_cons] at *
    rw [ih]

/-- Swapping the components exchanges the two second moments. -/
theorem syy_swap (ps : List (ℝ × ℝ)) : syy (ps.map (fun p => (p.2, p.1))) = sxx ps := by
  induction ps with
  | nil => rfl
  | cons p t ih =>
    simp only [sxx, syy, List.map_cons, List.sum_cons] at *
    rw [ih]

/-- Centering commutes with swapping the sample's components. -/
theorem centerPairs_swap (ps : List (ℝ × ℝ)) :
    centerPairs (ps.map (fun p => (p.2, p.1))) =
      (centerPairs ps).map (fun p => (p.2, p.1)) := by
  simp only [centerPairs, List.map_map]
  rfl

/-- The Pearson coefficient is symmetric in the two series. -/
theorem pearson_swap (ps : List (ℝ × ℝ)) :
    pearson (ps.map (fun p => (p.2, p.1))) = pearson ps := by
  unfold pearson
  rw [centerPairs_swap, sxx_swap, syy_swap, sxy_swap]
  by_cases h1 : sxx (centerPairs ps) = 0 ∨ syy (centerPairs ps) = 0
  · rw [if_pos (Or.symm h1), if_pos h1]
  · rw [if_neg (fun hh => h1 (Or.symm hh)), if_neg h1, mul_comm]

/-- Pairwise completion in the reversed column order swaps the pairs. -/
theorem pairwiseComplete_swap :
    ∀ (xs ys : List (Option ℝ)),
      pairwiseComplete ys xs = (pairwiseComplete xs ys).map (fun p => (p.2, p.1)) := by
  intro xs
  induction xs with
  | nil => intro ys; cases ys <;> rfl
  | cons x xs ih =>
    intro ys
    cases ys with
    | nil => rfl
    | cons y ys =>
      simp only [pairwiseComplete, List.zip_cons_cons, List.filterMap_cons] at *
      cases x <;> cases y <;> simp [ih ys]

/-- Pairwise completion of a column with itself yields diagonal pairs. -/
theorem pairwiseComplete_diag :
    ∀ (xs : List (Option ℝ)), ∀ p ∈ pairwiseComplete xs xs, p.1 = p.2 := by
  intro xs
  induction xs with
  | nil => intro p hp; simp [pairwiseComplete] at hp
  | cons x rest ih =>
    intro p hp
    simp only [pairwiseComplete, List.zip_cons_cons, List.filterMap_cons] at hp
    cases x with
    | none => exact ih p hp
    | some v =>
      simp only [Option.bind_some, Option.map_some'] at hp
      rcases List.mem_cons.mp hp with h | h
      · rw [h]
      · exact ih p h

/-- Claim C9 counterexample: a merged table with a constant column gives a
windowed pct-change series of zero variance, so the pandas Pearson diagonal
entry for that column is undefined (`NaN`) instead of the claimed `1.0`. -/
theorem corr_constant_diag_cex :
    corrPipeline { index := [0, 1, 2], cols := [("SC", [some 1, some 1, some 1])] }
        0 2 "SC" "SC" = none ∧
    corrPipeline { index := [0, 1, 2], cols := [("SC", [some 1, some 1, some 1])] }
        0 2 "SC" "SC" ≠ some 1 := by
  have h1 : corrPipeline { index := [0, 1, 2], cols := [("SC", [some 1, some 1, some 1])] }
      0 2 "SC" "SC" =
      pearson [((1:ℝ)/1 - 1, (1:ℝ)/1 - 1), ((1:ℝ)/1 - 1, (1:ℝ)/1 - 1)] := rfl
  have hsxx : sxx (centerPairs [((0:ℝ), 0), (0, 0)]) = 0 := by
    norm_num [sxx, centerPairs, listMean]
  have h2 : corrPipeline { index := [0, 1, 2], cols := [("SC", [some 1, some 1, some 1])] }
      0 2 "SC" "SC" = none := by
    rw [h1, show ((1:ℝ)/1 - 1) = 0 by norm_num]
    unfold pearson
    rw [if_pos (Or.inl hsxx)]
  exact ⟨h2, by rw [h2]; exact fun hh => Option.noConfusion hh⟩

/-- Claim C9 (amended): for every merged table, window and pair of columns,
the matrix `window(df).pct_change().corr(method='pearson')` — computed over
pairwise-complete observations — is symmetric; every defined diagonal entry
equals exactly `1`; and every defined entry lies in `[-1, 1]`.  (A diagonal
entry is undefined when the column's windowed pct-change series has zero
variance over its pairwise-complete rows, e.g. a constant column.) -/
theorem corr_matrix_properties (df : DataFrame ℝ) (lo hi : Date) (c1 c2 : String) :
    corrPipeline df lo hi c1 c2 = corrPipeline df lo hi c2 c1 ∧
    (∀ r, corrPipeline df lo hi c1 c1 = some r → r = 1) ∧
    (∀ r, corrPipeline df lo hi c1 c2 = some r → -1 ≤ r ∧ r ≤ 1) := by
  unfold corrPipeline corrEntry
  refine ⟨?_, ?_, ?_⟩
  · cases h1 : alookup c1 (pctChange (restrictWindow df lo hi)).cols with
    | none =>
      cases h2 : alookup c2 (pctChange (restrictWindow df lo hi)).cols <;> rfl
    | some v1 =>
      cases h2 : alookup c2 (pctChange (restrictWindow df lo hi)).cols with
      | none => rfl
      | some v2 =>
        show pearson (pairwiseComplete v1 v2) = pearson (pairwiseComplete v2 v1)
        rw [pairwiseComplete_swap v1 v2, pearson_swap]
  · intro r hr
    cases h1 : alookup c1 (pctChange (restrictWindow df lo hi)).cols with
    | none => rw [h1] at hr; exact absurd hr (by simp)
    | some v =>
      rw [h1] at hr
      exact pearson_diag _ (pairwiseComplete_diag v) r hr
  · intro r hr
    cases h1 : alookup c1 (pctChange (restrictWindow df lo hi)).cols with
    | none => rw [h1] at hr; exact absurd hr (by simp)
    | some v1 =>
      cases h2 : alookup c2 (pctChange (restrictWindow df lo hi)).cols with
      | none => rw [h1, h2] at hr; exact absurd hr (by simp)
      | some v2 =>
        rw [h1, h2] at hr
        exact pearson_bounds _ r hr

/-- Witness for the amended C9: a concrete nonconstant column whose diagonal
correlation entry is defined, equals `1`, and satisfies the bounds. -/
theorem corr_matrix_properties_witness :
    corrPipeline { index := [0, 1, 2], cols := [("ETH", [some 1, some 2, some 6])] }
        0 2 "ETH" "ETH" = some 1 ∧
    (1 : ℝ) = 1 ∧ (-1 ≤ (1 : ℝ) ∧ (1 : ℝ) ≤ 1) := by
  have heval : corrPipeline { index := [0, 1, 2], cols := [("ETH", [some 1, some 2, some 6])] }
      0 2 "ETH" "ETH" = some 1 := by
    have h1 : corrPipeline { index := [0, 1, 2], cols := [("ETH", [some 1, some 2, some 6])] }
        0 2 "ETH" "ETH" =
        pearson [((2:ℝ)/1 - 1, (2:ℝ)/1 - 1), ((6:ℝ)/2 - 1, (6:ℝ)/2 - 1)] := rfl
    rw [h1, show ((2:ℝ)/1 - 1) = 1 by norm_num, show ((6:ℝ)/2 - 1) = 2 by norm_num]
    have hsxx : sxx (centerPairs [((1:ℝ), 1), (2, 2)]) = 1/2 := by
      norm_num [sxx, centerPairs, listMean]
    have hsyy : syy (centerPairs [((1:ℝ), 1), (2, 2)]) = 1/2 := by
      norm_num [syy, centerPairs, listMean]
    have hsxy : sxy (centerPairs [((1:ℝ), 1), (2, 2)]) = 1/2 := by
      norm_num [sxy, centerPairs, listMean]
    unfold pearson
    rw [hsxx, hsyy, hsxy, if_neg (by norm_num)]
    rw [Real.mul_self_sqrt (by norm_num : (0:ℝ) ≤ 1/2)]
    norm_num
  exact ⟨heval,
    (corr_matrix_properties { index := [0, 1, 2], cols := [("ETH", [some 1, some 2, some 6])] }
      0 2 "ETH" "ETH").2.1 1 heval,
    (corr_matrix_properties { index := [0, 1, 2], cols := [("ETH", [some 1, some 2, some 6])] }
      0 2 "ETH" "ETH").2.2 1 heval⟩

end CryptoNotebook
